import Mathlib

/-!
Verification development for a multi-tenant partitioned key-value store
consisting of a storage node (partitions over an embedded ordered KV
engine, a partition lookup with a persisted catalog, an RPC facade) and
an HTTP gateway. Rust sources are shallowly embedded: machine `u32`
values become `Nat` with explicit `2 ^ 32` bounds, byte buffers become
`List Nat`, the ordered engine becomes sorted association lists, and
fallible operations return `Except`.
-/

/-- Bytes are modelled as natural numbers (each intended `< 256`). -/
abbrev Bytes := List Nat

/-- Big-endian 4-byte encoding of a `u32` (`u32::to_be_bytes`). -/
def be32 (n : Nat) : Bytes :=
  [n / 2 ^ 24 % 256, n / 2 ^ 16 % 256, n / 2 ^ 8 % 256, n % 256]

/-- Big-endian decoding of a byte list (`u32::from_be_bytes`). -/
def u32FromBe (l : Bytes) : Nat :=
  l.foldl (fun acc b => acc * 256 + b) 0

/-- Strict lexicographic order on raw byte strings: the order RocksDB
uses for keys within a column family. -/
def lexLt : Bytes → Bytes → Bool
  | [], [] => false
  | [], _ :: _ => true
  | _ :: _, [] => false
  | a :: as, b :: bs => if a < b then true else if b < a then false else lexLt as bs

/-- One bit step of the reflected CRC-32 (IEEE polynomial `0xEDB88320`),
as computed by the `crc32fast` crate. -/
def crc32Step (c : Nat) : Nat :=
  if c % 2 = 1 then (c / 2) ^^^ 0xEDB88320 else c / 2

/-- Fold one input byte into the CRC-32 state. -/
def crc32Byte (c b : Nat) : Nat :=
  crc32Step (crc32Step (crc32Step (crc32Step
    (crc32Step (crc32Step (crc32Step (crc32Step (c ^^^ b))))))))

/-- CRC-32 (IEEE) of a byte string, as `crc32fast::Hasher` computes it:
initial state `0xFFFFFFFF`, reflected polynomial, final xor-out. -/
def crc32 (data : Bytes) : Nat :=
  (data.foldl crc32Byte 0xFFFFFFFF) ^^^ 0xFFFFFFFF

/-- Association-list lookup (first match), the model of point reads in
maps (`DashMap::get`, RocksDB point `get`). -/
def alookup {κ α : Type} [DecidableEq κ] : List (κ × α) → κ → Option α
  | [], _ => none
  | (k', v) :: t, k => if k = k' then some v else alookup t k

/-- Insert-or-replace for an unordered association list: the model of
`DashMap::insert` / `HashMap::insert`. -/
def ainsert {κ α : Type} [DecidableEq κ] (k : κ) (v : α) :
    List (κ × α) → List (κ × α)
  | [] => [(k, v)]
  | (k', v') :: t => if k = k' then (k, v) :: t else (k', v') :: ainsert k v t

/-- Insert-or-replace keeping keys in RocksDB's lexicographic order:
the model of a `put` into one column family. -/
def insertSorted {α : Type} (k : Bytes) (v : α) :
    List (Bytes × α) → List (Bytes × α)
  | [] => [(k, v)]
  | (k', v') :: t =>
    if lexLt k k' then (k, v) :: (k', v') :: t
    else if k = k' then (k, v) :: t
    else (k', v') :: insertSorted k v t

/-- Remove a key from a column family: the model of a `delete`. -/
def removeKey {α : Type} (k : Bytes) : List (Bytes × α) → List (Bytes × α)
  | [] => []
  | (k', v') :: t => if k' = k then removeKey k t else (k', v') :: removeKey k t

/-- `partition::Error` (src/storage/src/partition.rs): a RocksDB engine
error or a general message. -/
inductive PError where
  | rocksDBError (msg : String)
  | general (msg : String)
deriving DecidableEq, Repr

/-- The payload of `Partition::put` (struct `PutValue`): caller-supplied
crc, version and value bytes (`crc`, `version` are Rust `u32`). -/
structure PutValue where
  crc : Nat
  version : Nat
  value : Bytes
deriving DecidableEq, Repr

/-- `PutValue::metadata_as_bytes`: the fixed 8-byte big-endian record
`crc ‖ version` stored in the metadata column family. -/
def PutValue.metadataAsBytes (v : PutValue) : Bytes :=
  be32 v.crc ++ be32 v.version

/-- The result of `Partition::put` (struct `ValueMetadata`). -/
structure ValueMetadata where
  crc : Nat
  version : Nat
deriving DecidableEq, Repr

/-- The result of `Partition::get` (struct `GetValue`). -/
structure GetValue where
  crc : Nat
  version : Nat
  value : Bytes
deriving DecidableEq, Repr

/-- The two column families of one partition's RocksDB instance:
`default` holds values, `metadata` holds the 8-byte headers. Both are
kept in the engine's lexicographic key order. -/
structure PartitionState where
  defaultCF : List (Bytes × Bytes)
  metadataCF : List (Bytes × Bytes)
deriving DecidableEq, Repr

/-- A freshly opened, empty partition. -/
def emptyPartition : PartitionState := ⟨[], []⟩

/-- `Partition::put`: one atomic write batch putting the value into the
default column family and the 8-byte header into the metadata column
family, returning the caller's crc and version. -/
def putOp (s : PartitionState) (key : Bytes) (v : PutValue) :
    PartitionState × ValueMetadata :=
  (⟨insertSorted key v.value s.defaultCF,
    insertSorted key v.metadataAsBytes s.metadataCF⟩,
   ⟨v.crc, v.version⟩)

/-- `Partition::get`: a multi-get over both column families; the
metadata slot is inspected first, then the value slot; an absent record
in either produces `Error::General("could not find value")`. -/
def getOp (s : PartitionState) (key : Bytes) : Except PError GetValue :=
  match alookup s.metadataCF key with
  | none => .error (.general "could not find value")
  | some m =>
    match alookup s.defaultCF key with
    | none => .error (.general "could not find value")
    | some v =>
      .ok ⟨u32FromBe (m.take 4), u32FromBe (m.drop 4), v⟩

/-- `Partition::delete`: one atomic write batch deleting the key from
both column families. -/
def deleteOp (s : PartitionState) (key : Bytes) : PartitionState :=
  ⟨removeKey key s.defaultCF, removeKey key s.metadataCF⟩

/-- `Partition::exists`: a point read of the default column family. -/
def existsOp (s : PartitionState) (key : Bytes) : Bool :=
  (alookup s.defaultCF key).isSome

/-- `partition::ListOptions`: optional limit and inclusive start key
(the Rust field holds a `&str`; its `as_bytes` view is modelled). -/
structure ListOptions where
  limit : Option Nat
  startAt : Option Bytes
deriving DecidableEq, Repr

/-- `ListOptions::default()`. -/
def ListOptions.dflt : ListOptions := ⟨none, none⟩

/-- One element of a `list_keys` result (`KeyMetadata` with its decoded
`Metadata`). -/
structure KeyMetadata where
  key : Bytes
  crc : Nat
  version : Nat
deriving DecidableEq, Repr

/-- `Partition::list_keys`: iterate the metadata column family forward
from `start_at` (or from the first key), take at most `limit` entries
(default 50), decode each 8-byte header. -/
def listKeysOp (s : PartitionState) (opts : ListOptions) : List KeyMetadata :=
  let entries : List (Bytes × Bytes) :=
    match opts.startAt with
    | some st => s.metadataCF.dropWhile (fun e => lexLt e.1 st)
    | none => s.metadataCF
  (entries.take (opts.limit.getD 50)).map
    (fun e => ⟨e.1, u32FromBe (e.2.take 4), u32FromBe (e.2.drop 4)⟩)

set_option maxRecDepth 4096

/-! ## Partition lookup and the persisted catalog
(src/storage/src/lookup.rs). UUIDs are abstract identities, modelled
as `Nat`. -/

/-- UUIDs are opaque 128-bit identities; only equality matters. -/
abbrev Uuid := Nat

/-- The identity triple of a `Partition` (the engine handle is held in
the separate store map, keyed by `id`). -/
structure PartRec where
  tenantId : Uuid
  namespaceId : Uuid
  id : Uuid
deriving DecidableEq, Repr

/-- `PartitionLookup`: the map `(tenant_id, namespace_id) → ordered
partition sequence`. The jump hasher is a process-wide constant
(`CustomJumpHasher::new(Crc64Hasher::new())`) and is factored out as a
function argument `slot` where routing needs it. -/
structure LookupState where
  partitions : List ((Uuid × Uuid) × List PartRec)
deriving DecidableEq, Repr

/-- `PartitionLookup::load` on a missing catalog file: the empty map. -/
def emptyLookup : LookupState := ⟨[]⟩

/-- `PartitionLookup::add_partition_internal`: append the partition to
the sequence for `(tenant_id, namespace_id)` (creating it if absent)
and re-insert. -/
def addPartitionInternal (l : LookupState) (p : PartRec) : LookupState :=
  let id := (p.tenantId, p.namespaceId)
  let ps :=
    match alookup l.partitions id with
    | some ps => ps ++ [p]
    | none => [p]
  ⟨ainsert id ps l.partitions⟩

/-- `PartitionLookup::partitions`. -/
def partitionsFn (l : LookupState) (tenantId namespaceId : Uuid) :
    Option (List PartRec) :=
  alookup l.partitions (tenantId, namespaceId)

/-- `PartitionLookup::get_partition_for_key`: route via the jump slot
of the key at the current partition count, then index the sequence.
`slot key n` models `self.hasher.slot(key, n)`. -/
def getPartitionForKey (slot : Bytes → Nat → Nat) (l : LookupState)
    (tenantId namespaceId : Uuid) (key : Bytes) : Option PartRec :=
  (partitionsFn l tenantId namespaceId).map
    (fun ps => ps.getD (slot key ps.length) ⟨0, 0, 0⟩)

/-- `lookup::PersistedID`: the catalog key. NOTE the field names follow
the source, whose `From<&(Uuid, Uuid)>` puts the map key's first
component (the tenant id) into `namespace_id` and the second (the
namespace id) into `tenant_id`; the inverse `From<&PersistedID>` undoes
exactly that swap. -/
structure PersistedID where
  namespaceId : Uuid
  tenantId : Uuid
deriving DecidableEq, Repr

/-- `From<&(Uuid, Uuid)> for PersistedID`. -/
def persistedIDOfPair (k : Uuid × Uuid) : PersistedID :=
  ⟨k.1, k.2⟩

/-- `From<&PersistedID> for (Uuid, Uuid)`. -/
def pairOfPersistedID (p : PersistedID) : Uuid × Uuid :=
  (p.namespaceId, p.tenantId)

/-- `lookup::PersistedPartition`. -/
structure PersistedPartition where
  namespaceId : Uuid
  tenantId : Uuid
  id : Uuid
deriving DecidableEq, Repr

/-- `From<&Partition> for PersistedPartition`. -/
def persistedOfPartition (p : PartRec) : PersistedPartition :=
  ⟨p.namespaceId, p.tenantId, p.id⟩

/-- `PersistedPartition::to_partition`: reopen the partition with the
same identity triple. -/
def partitionOfPersisted (p : PersistedPartition) : PartRec :=
  ⟨p.tenantId, p.namespaceId, p.id⟩

/-- `lookup::PersistedState`: structural image of `partitions.json`.
The JSON text round-trip (`serde_json::to_writer_pretty` then
`from_reader`) is modelled as the identity on this structure: object
keys are unique and array order is preserved. -/
structure PersistedState where
  partitions : List (PersistedID × List PersistedPartition)
deriving DecidableEq, Repr

/-- `From<&PartitionLookup> for PersistedState` (the body of `save`). -/
def saveState (l : LookupState) : PersistedState :=
  ⟨l.partitions.map (fun e => (persistedIDOfPair e.1, e.2.map persistedOfPartition))⟩

/-- `PersistedState::to_partition_lookup` (the body of `load` when the
catalog file exists). -/
def loadState (ps : PersistedState) : LookupState :=
  ⟨ps.partitions.map (fun e => (pairOfPersistedID e.1, e.2.map partitionOfPersisted))⟩

/-! ## StorageService RPC facade (src/storage/src/main.rs). -/

/-- The RPC status codes this service emits. -/
inductive Code where
  | invalidArgument
  | notFound
  | internal
deriving DecidableEq, Repr

/-- A tonic `Status`: code plus message. -/
structure Status where
  code : Code
  msg : String
deriving DecidableEq, Repr

/-- `PutRequest` as the service consumes it: `namespace_id` is `none`
when the request string fails UUID parsing; `crc` is the optional
client-provided checksum. -/
structure PutRequest where
  namespaceId : Option Uuid
  key : Bytes
  value : Bytes
  crc : Option Nat
deriving DecidableEq, Repr

/-- `PutResponse` (`creation_time`, a wall-clock read, is omitted from
the model). -/
structure PutResponse where
  version : Nat
  crc : Nat
deriving DecidableEq, Repr

/-- The per-partition stores of a node, keyed by partition UUID. -/
abbrev Stores := List (Uuid × PartitionState)

/-- Engine state of one partition on the node (a partition registered
in the catalog but never written is the empty store). -/
def storeOf (stores : Stores) (id : Uuid) : PartitionState :=
  (alookup stores id).getD emptyPartition

/-- The tail of `NodeStorageServer::put` after the CRC check: resolve
the partition via the lookup (missing → `NotFound`), then write
`{crc: computed, version: 1, value}` and answer with the returned
metadata. -/
def serverPutAfterCrc (slot : Bytes → Nat → Nat) (l : LookupState)
    (stores : Stores) (tenantId namespaceId : Uuid) (req : PutRequest)
    (calculatedCrc : Nat) : Except Status PutResponse × Stores :=
  match getPartitionForKey slot l tenantId namespaceId req.key with
  | none => (.error ⟨.notFound, "partition not found"⟩, stores)
  | some p =>
    let r := putOp (storeOf stores p.id) req.key ⟨calculatedCrc, 1, req.value⟩
    (.ok ⟨r.2.version, r.2.crc⟩, ainsert p.id r.1 stores)

/-- `NodeStorageServer::put`: parse the namespace UUID, compute the
CRC-32 of `key ‖ value`, reject a mismatching client CRC, then resolve
and write via `serverPutAfterCrc`. Returns the response (or status)
together with the node's partition stores after the call. -/
def serverPut (slot : Bytes → Nat → Nat) (l : LookupState) (stores : Stores)
    (tenantId : Uuid) (req : PutRequest) :
    Except Status PutResponse × Stores :=
  match req.namespaceId with
  | none => (.error ⟨.invalidArgument, "invalid uuid"⟩, stores)
  | some namespaceId =>
    let calculatedCrc := crc32 (req.key ++ req.value)
    match req.crc with
    | some c =>
      if c ≠ calculatedCrc then (.error ⟨.invalidArgument, "crc mismatch"⟩, stores)
      else serverPutAfterCrc slot l stores tenantId namespaceId req calculatedCrc
    | none => serverPutAfterCrc slot l stores tenantId namespaceId req calculatedCrc

/-- `ListKeysRequest` as the service consumes it (its namespace string
parsed; `limit` and `start_key` as carried on the wire). -/
structure ListKeysRequest where
  namespaceId : Uuid
  limit : Option Nat
  startKey : Option Bytes
deriving DecidableEq, Repr

/-- `NodeStorageServer::list_keys`: resolve the partition sequence; if
none, succeed with the empty list; otherwise run `list_keys` with
`ListOptions::default()` on every partition and concatenate the results
in partition order. -/
def serverListKeys (l : LookupState) (stores : Stores) (tenantId : Uuid)
    (req : ListKeysRequest) : Except Status (List KeyMetadata) :=
  match partitionsFn l tenantId req.namespaceId with
  | none => .ok []
  | some ps =>
    .ok (ps.flatMap (fun p => listKeysOp (storeOf stores p.id) ListOptions.dflt))

/-- Modelled from the spec: the behaviour §4.4 claims for `list_keys` —
issue `list_keys` on each partition with the options provided in the
request (its `limit` and `start_key`), concatenating in partition
order. For comparison with `serverListKeys`, which the source defines. -/
def serverListKeysSpec (l : LookupState) (stores : Stores) (tenantId : Uuid)
    (req : ListKeysRequest) : Except Status (List KeyMetadata) :=
  match partitionsFn l tenantId req.namespaceId with
  | none => .ok []
  | some ps =>
    .ok (ps.flatMap (fun p => listKeysOp (storeOf stores p.id) ⟨req.limit, req.startKey⟩))

/-! ## Gateway put handler (src/kvstore/src/main.rs). -/

/-- What the gateway's `put` handler does between parsing the body and
issuing the RPC: compute CRC-32 of `key ‖ value`; then the source's
`match data.crc { Some(crc) => if crc != crc { BAD_REQUEST } ... }`,
whose binder shadows the computed CRC so the guard compares the client
value with itself; finally forward `crc: Some(computed)`. Returns the
CRC field of the forwarded `PutRequest`, or the HTTP 400 short-circuit. -/
def gatewayForwardedCrc (key value : Bytes) (clientCrc : Option Nat) :
    Except Nat (Option Nat) :=
  let crc := crc32 (key ++ value)
  match clientCrc with
  | some c => if c ≠ c then .error 400 else .ok (some crc)
  | none => .ok (some crc)

/-! ## Partition operation sequences (for the cross-family invariant). -/

/-- One client-visible partition operation. -/
inductive POp where
  | put (key : Bytes) (v : PutValue)
  | del (key : Bytes)
  | get (key : Bytes)
  | existsQ (key : Bytes)
  | list (opts : ListOptions)
deriving Repr

/-- State transition of one operation: `get`, `exists` and `list_keys`
take `&self` and leave the engine untouched. -/
def applyPOp (s : PartitionState) : POp → PartitionState
  | .put key v => (putOp s key v).1
  | .del key => deleteOp s key
  | .get _ => s
  | .existsQ _ => s
  | .list _ => s

/-- Run a sequence of operations from a fresh partition. -/
def runPOps (ops : List POp) : PartitionState :=
  ops.foldl applyPOp emptyPartition

/-- A column family is sorted in RocksDB key order: every key strictly
precedes every later key lexicographically. -/
abbrev MDSorted {α : Type} (l : List (Bytes × α)) : Prop :=
  List.Pairwise (fun a b => lexLt a.1 b.1 = true) l

/-! ## Lemmas about the map primitives. -/

theorem crc32_alphaone : crc32 [97, 108, 112, 104, 97, 111, 110, 101] = 0x91A2A715 := by
  decide

theorem alookup_ainsert {κ α : Type} [DecidableEq κ] (k k' : κ) (v : α)
    (l : List (κ × α)) :
    alookup (ainsert k v l) k' = if k' = k then some v else alookup l k' := by
  induction l with
  | nil => simp [ainsert, alookup]
  | cons e t ih =>
    obtain ⟨k₀, v₀⟩ := e
    by_cases hk : k = k₀
    · subst hk
      by_cases h' : k' = k <;> simp [ainsert, alookup, h']
    · by_cases h' : k' = k₀
      · subst h'
        simp [ainsert, alookup, hk, Ne.symm hk]
      · simp [ainsert, alookup, hk, h', ih]

theorem alookup_insertSorted {α : Type} (k k' : Bytes) (v : α)
    (l : List (Bytes × α)) :
    alookup (insertSorted k v l) k' = if k' = k then some v else alookup l k' := by
  induction l with
  | nil => simp [insertSorted, alookup]
  | cons e t ih =>
    obtain ⟨k₀, v₀⟩ := e
    by_cases hlt : lexLt k k₀
    · by_cases h' : k' = k <;> simp [insertSorted, alookup, hlt, h']
    · by_cases hk : k = k₀
      · subst hk
        by_cases h' : k' = k <;> simp [insertSorted, alookup, hlt, h']
      · by_cases h' : k' = k₀
        · subst h'
          simp [insertSorted, alookup, hlt, hk, Ne.symm hk]
        · by_cases h'' : k' = k
          · subst h''
            simp [insertSorted, alookup, hlt, hk, h', ih]
          · simp [insertSorted, alookup, hlt, hk, h', h'', ih]

theorem alookup_removeKey {α : Type} (k k' : Bytes) (l : List (Bytes × α)) :
    alookup (removeKey k l) k' = if k' = k then none else alookup l k' := by
  induction l with
  | nil => simp [removeKey, alookup]
  | cons e t ih =>
    obtain ⟨k₀, v₀⟩ := e
    by_cases hk : k₀ = k
    · subst hk
      by_cases h' : k' = k₀
      · subst h'
        simp [removeKey, alookup, ih]
      · simp [removeKey, alookup, h', ih]
    · by_cases h' : k' = k₀
      · subst h'
        simp [removeKey, alookup, hk, Ne.symm hk, ih]
      · simp [removeKey, alookup, hk, h', ih]

theorem lexLt_trans : ∀ (a b c : Bytes), lexLt a b = true → lexLt b c = true →
    lexLt a c = true
  | [], [], _, h1, _ => by simp [lexLt] at h1
  | [], _ :: _, [], _, h2 => by simp [lexLt] at h2
  | [], _ :: _, _ :: _, _, _ => by simp [lexLt]
  | _ :: _, [], _, h1, _ => by simp [lexLt] at h1
  | _ :: _, _ :: _, [], _, h2 => by simp [lexLt] at h2
  | a0 :: as, b0 :: bs, c0 :: cs, h1, h2 => by
    simp only [lexLt] at h1 h2 ⊢
    by_cases hab : a0 < b0
    · by_cases hbc : b0 < c0
      · simp [Nat.lt_trans hab hbc]
      · by_cases hcb : c0 < b0
        · simp [hbc, hcb] at h2
        · have hbc' : b0 = c0 := by omega
          subst hbc'
          simp [hab]
    · by_cases hba : b0 < a0
      · simp [hab, hba] at h1
      · have hab' : a0 = b0 := by omega
        subst hab'
        by_cases hac : a0 < c0
        · simp [hac]
        · by_cases hca : c0 < a0
          · simp [hac, hca] at h2
          · simp [hab, hac, hca] at h1 h2 ⊢
            exact lexLt_trans as bs cs h1 h2

theorem dropWhile_lexLt_eq_filter {α : Type} (st : Bytes)
    (l : List (Bytes × α)) (hs : MDSorted l) :
    l.dropWhile (fun e => lexLt e.1 st) = l.filter (fun e => !lexLt e.1 st) := by
  induction l with
  | nil => rfl
  | cons e t ih =>
    obtain ⟨he, ht⟩ := List.pairwise_cons.mp hs
    by_cases hlt : lexLt e.1 st
    · simp [List.dropWhile_cons, List.filter_cons, hlt, ih ht]
    · have hall : ∀ y ∈ t, (!lexLt y.1 st) = true := by
        intro y hy
        simp only [Bool.not_eq_true']
        by_contra hc
        simp only [Bool.not_eq_false] at hc
        exact hlt (lexLt_trans _ _ _ (he y hy) hc)
      simp only [List.dropWhile_cons, hlt, if_neg, List.filter_cons]
      simp [hlt, List.filter_eq_self.mpr hall]

theorem mapFst_filter {α : Type} (p : Bytes → Bool) (l : List (Bytes × α)) :
    (l.filter (fun e => p e.1)).map Prod.fst = (l.map Prod.fst).filter p := by
  induction l with
  | nil => rfl
  | cons e t ih => by_cases hp : p e.1 <;> simp [List.filter_cons, hp, ih]

theorem u32FromBe_be32 (n : Nat) (h : n < 2 ^ 32) : u32FromBe (be32 n) = n := by
  simp only [be32, u32FromBe, List.foldl]
  omega

theorem metadataAsBytes_take (v : PutValue) :
    (PutValue.metadataAsBytes v).take 4 = be32 v.crc := by
  simp [PutValue.metadataAsBytes, be32]

theorem metadataAsBytes_drop (v : PutValue) :
    (PutValue.metadataAsBytes v).drop 4 = be32 v.version := by
  simp [PutValue.metadataAsBytes, be32]

/-! ## Catalog round-trip lemmas. -/

theorem partitionOfPersisted_persistedOfPartition (p : PartRec) :
    partitionOfPersisted (persistedOfPartition p) = p := rfl

theorem pairOfPersistedID_persistedIDOfPair (k : Uuid × Uuid) :
    pairOfPersistedID (persistedIDOfPair k) = k := rfl

theorem loadState_saveState (l : LookupState) : loadState (saveState l) = l := by
  obtain ⟨entries⟩ := l
  simp only [saveState, loadState, List.map_map, LookupState.mk.injEq]
  induction entries with
  | nil => rfl
  | cons e t ih =>
    obtain ⟨k, ps⟩ := e
    simp only [List.map_cons, List.cons.injEq]
    refine ⟨?_, ih⟩
    simp [Function.comp_def, List.map_map, pairOfPersistedID_persistedIDOfPair,
      partitionOfPersisted_persistedOfPartition]

/-! ## Cross-column-family invariant lemmas. -/

theorem cfInvariant_step (s : PartitionState)
    (h : ∀ k, (alookup s.defaultCF k).isSome = (alookup s.metadataCF k).isSome)
    (op : POp) (k : Bytes) :
    (alookup (applyPOp s op).defaultCF k).isSome =
      (alookup (applyPOp s op).metadataCF k).isSome := by
  cases op with
  | put key v =>
    simp only [applyPOp, putOp, alookup_insertSorted]
    by_cases hk : k = key <;> simp [hk, h k]
  | del key =>
    simp only [applyPOp, deleteOp, alookup_removeKey]
    by_cases hk : k = key <;> simp [hk, h k]
  | get _ => exact h k
  | existsQ _ => exact h k
  | list _ => exact h k

theorem cfInvariant_foldl (ops : List POp) :
    ∀ s : PartitionState,
      (∀ k, (alookup s.defaultCF k).isSome = (alookup s.metadataCF k).isSome) →
      ∀ k, (alookup (ops.foldl applyPOp s).defaultCF k).isSome =
        (alookup (ops.foldl applyPOp s).metadataCF k).isSome := by
  induction ops with
  | nil => intro s hs; exact hs
  | cons op t ih =>
    intro s hs
    exact ih (applyPOp s op) (cfInvariant_step s hs op)

/-! ## Server put helper lemma. -/

theorem serverPutAfterCrc_ok_version (slot : Bytes → Nat → Nat)
    (l : LookupState) (stores : Stores) (tenantId namespaceId : Uuid)
    (req : PutRequest) (cc : Nat) (resp : PutResponse) (stores' : Stores)
    (h : serverPutAfterCrc slot l stores tenantId namespaceId req cc =
      (.ok resp, stores')) : resp.version = 1 := by
  simp only [serverPutAfterCrc] at h
  split at h
  · simp at h
  · simp only [putOp, Prod.mk.injEq, Except.ok.injEq] at h
    obtain ⟨hresp, -⟩ := h
    subst hresp
    rfl

/-- `serverPutAfterCrc` reads only the key and value of the request. -/
theorem serverPutAfterCrc_congr (slot : Bytes → Nat → Nat) (l : LookupState)
    (stores : Stores) (tenantId namespaceId : Uuid) (req req' : PutRequest)
    (cc : Nat) (hk : req.key = req'.key) (hv : req.value = req'.value) :
    serverPutAfterCrc slot l stores tenantId namespaceId req cc =
      serverPutAfterCrc slot l stores tenantId namespaceId req' cc := by
  simp [serverPutAfterCrc, hk, hv]

/-! ## Claim theorems. -/

/-- C1: Catalog persistence round-trip. For every `PartitionLookup`
state reachable by a sequence of `add_partition` calls, serializing the
catalog (`PersistedState`) and reloading it yields a lookup whose
`partitions(tenant_id, namespace_id)` returns the same partition
sequence (same identities, same order), and whose
`get_partition_for_key` yields the same partition for every key (for
the process-constant jump hasher, here any slot function). -/
theorem catalog_persistence_roundtrip (ops : List PartRec) (t n : Uuid)
    (slot : Bytes → Nat → Nat) (key : Bytes) :
    partitionsFn (loadState (saveState (ops.foldl addPartitionInternal emptyLookup))) t n =
      partitionsFn (ops.foldl addPartitionInternal emptyLookup) t n ∧
    getPartitionForKey slot
        (loadState (saveState (ops.foldl addPartitionInternal emptyLookup))) t n key =
      getPartitionForKey slot (ops.foldl addPartitionInternal emptyLookup) t n key := by
  rw [loadState_saveState]
  exact ⟨rfl, rfl⟩

/-- C7: Atomicity invariant. After any sequence of successful `put`,
`delete`, `get`, `exists` and `list_keys` operations from a fresh
partition, a key has a value record in the default column family iff
it has a metadata record in the metadata column family. -/
theorem atomicity_invariant (ops : List POp) (k : Bytes) :
    (alookup (runPOps ops).defaultCF k).isSome =
      (alookup (runPOps ops).metadataCF k).isSome := by
  exact cfInvariant_foldl ops emptyPartition (fun _ => rfl) k

/-- C8: Round-trip. A successful `Partition::put(k, {crc, version,
value})` followed by `Partition::get(k)` returns the same value, crc
and version (crc and version being `u32` values). -/
theorem put_get_roundtrip (s : PartitionState) (k v : Bytes) (c ver : Nat)
    (hc : c < 2 ^ 32) (hv : ver < 2 ^ 32) :
    getOp (putOp s k ⟨c, ver, v⟩).1 k = .ok ⟨c, ver, v⟩ := by
  simp [putOp, getOp, alookup_insertSorted, metadataAsBytes_take,
    metadataAsBytes_drop, u32FromBe_be32 c hc, u32FromBe_be32 ver hv]

theorem put_get_roundtrip_witness :
    getOp (putOp emptyPartition [1] ⟨7, 3, [9]⟩).1 [1] = .ok ⟨7, 3, [9]⟩ :=
  put_get_roundtrip emptyPartition [1] [9] 7 3 (by decide) (by decide)

/-- C5: Version stored verbatim. `Partition::put` returns exactly the
caller-provided version, the metadata record it writes decodes back to
that version, and `NodeStorageServer::put` answers with the version of
the `PutValue` it submitted (the constant 1 it passes as caller). -/
theorem put_version_verbatim (s : PartitionState) (k : Bytes) (pv : PutValue)
    (hv : pv.version < 2 ^ 32) :
    (putOp s k pv).2.version = pv.version ∧
    ((alookup (putOp s k pv).1.metadataCF k).map (fun m => u32FromBe (m.drop 4))) =
      some pv.version ∧
    (∀ (slot : Bytes → Nat → Nat) (l : LookupState) (stores : Stores)
        (t : Uuid) (req : PutRequest) (resp : PutResponse) (stores' : Stores),
      serverPut slot l stores t req = (.ok resp, stores') → resp.version = 1) := by
  refine ⟨rfl, ?_, ?_⟩
  · simp [putOp, alookup_insertSorted, metadataAsBytes_drop,
      u32FromBe_be32 pv.version hv]
  · intro slot l stores t req resp stores' h
    simp only [serverPut] at h
    split at h
    · simp at h
    · split at h
      · split at h
        · simp at h
        · exact serverPutAfterCrc_ok_version _ _ _ _ _ _ _ _ _ h
      · exact serverPutAfterCrc_ok_version _ _ _ _ _ _ _ _ _ h

theorem put_version_verbatim_witness :
    (putOp emptyPartition [1] ⟨5, 9, [2]⟩).2.version = 9 ∧
    ((alookup (putOp emptyPartition [1] ⟨5, 9, [2]⟩).1.metadataCF [1]).map
      (fun m => u32FromBe (m.drop 4))) = some 9 :=
  ⟨(put_version_verbatim emptyPartition [1] ⟨5, 9, [2]⟩ (by decide)).1,
   (put_version_verbatim emptyPartition [1] ⟨5, 9, [2]⟩ (by decide)).2.1⟩

/-- C6: CRC contract of the put RPC. For a put request with a valid
namespace UUID, if the client supplies a CRC different from the CRC-32
the server computes over `key ‖ value`, the call fails with
`InvalidArgument("crc mismatch")` and the partition stores are
unchanged; and any request without a client CRC behaves exactly like
the same request carrying the computed CRC. -/
theorem put_crc_contract (slot : Bytes → Nat → Nat) (l : LookupState)
    (stores : Stores) (t : Uuid) (req : PutRequest) (ns : Uuid) (c : Nat)
    (hns : req.namespaceId = some ns) (hc : req.crc = some c)
    (hne : c ≠ crc32 (req.key ++ req.value)) :
    serverPut slot l stores t req =
      (.error ⟨.invalidArgument, "crc mismatch"⟩, stores) ∧
    ∀ req' : PutRequest, req'.crc = none →
      serverPut slot l stores t req' =
        serverPut slot l stores t
          { req' with crc := some (crc32 (req'.key ++ req'.value)) } := by
  constructor
  · simp [serverPut, hns, hc, hne]
  · intro req' hc'
    cases hns' : req'.namespaceId with
    | none => simp [serverPut, hns', hc']
    | some ns' =>
      simp only [serverPut, hns', hc']
      simp only [if_neg (by simp : ¬(crc32 (req'.key ++ req'.value) ≠
        crc32 (req'.key ++ req'.value)))]
      exact serverPutAfterCrc_congr _ _ _ _ _ _ _ _ rfl rfl

theorem put_crc_contract_witness :
    serverPut (fun _ _ => 0) emptyLookup [] 1
      ⟨some 2, [97, 108, 112, 104, 97], [111, 110, 101], some 0xDEADBEEF⟩ =
      (.error ⟨.invalidArgument, "crc mismatch"⟩, []) :=
  (put_crc_contract (fun _ _ => 0) emptyLookup [] 1
    ⟨some 2, [97, 108, 112, 104, 97], [111, 110, 101], some 0xDEADBEEF⟩
    2 0xDEADBEEF rfl rfl (by decide)).1

/-- C10: A list_keys RPC for a `(tenant, namespace)` pair with no
partition entry succeeds with an empty key list, while a put RPC for
the same pair (with a well-formed request that passes the CRC stage)
fails with `NotFound("partition not found")`. -/
theorem no_partitions_list_empty_put_not_found (slot : Bytes → Nat → Nat)
    (l : LookupState) (stores : Stores) (t n : Uuid) (lim : Option Nat)
    (sk : Option Bytes) (key value : Bytes)
    (h : partitionsFn l t n = none) :
    serverListKeys l stores t ⟨n, lim, sk⟩ = .ok [] ∧
    serverPut slot l stores t ⟨some n, key, value, none⟩ =
      (.error ⟨.notFound, "partition not found"⟩, stores) := by
  constructor
  · simp [serverListKeys, h]
  · simp [serverPut, serverPutAfterCrc, getPartitionForKey, h]

theorem no_partitions_list_empty_put_not_found_witness :
    serverListKeys emptyLookup [] 1 ⟨2, none, none⟩ = .ok [] ∧
    serverPut (fun _ _ => 0) emptyLookup [] 1 ⟨some 2, [3], [4], none⟩ =
      (.error ⟨.notFound, "partition not found"⟩, []) :=
  no_partitions_list_empty_put_not_found (fun _ _ => 0) emptyLookup [] 1 2
    none none [3] [4] rfl

/-- C2 counterexample: `Partition::get` yields the very same
`Error::General("could not find value")` on a state where only the
value record exists (metadata absent) as on a state where both records
are absent — there is no Corrupt-class error distinct from the
NotFound case. -/
theorem get_one_sided_error_not_distinct :
    getOp ⟨[([107], [1])], []⟩ [107] = .error (.general "could not find value") ∧
    getOp ⟨[], []⟩ [107] = .error (.general "could not find value") ∧
    (alookup (PartitionState.mk [([107], [1])] []).defaultCF [107]).isSome = true ∧
    (alookup (PartitionState.mk [([107], [1])] []).metadataCF [107]).isSome = false :=
  ⟨rfl, rfl, rfl, rfl⟩

/-- C2 amended: whenever the metadata record or the value record for a
key is absent, `Partition::get` fails with the single error
`Error::General("could not find value")`; the implementation does not
distinguish a one-sided (corrupt) state from a wholly absent key. -/
theorem get_missing_record_general_error (s : PartitionState) (k : Bytes)
    (h : alookup s.metadataCF k = none ∨ alookup s.defaultCF k = none) :
    getOp s k = .error (.general "could not find value") := by
  unfold getOp
  rcases h with h | h
  · simp [h]
  · cases hm : alookup s.metadataCF k <;> simp [h, hm]

theorem get_missing_record_general_error_witness :
    getOp ⟨[([107], [1])], []⟩ [107] = .error (.general "could not find value") :=
  get_missing_record_general_error ⟨[([107], [1])], []⟩ [107] (Or.inl rfl)

/-- C3 counterexample: a list_keys request with `limit = 1` against a
partition holding two keys. The implementation returns both keys
(default options), while the behaviour claimed in the spec (options
taken from the request, `serverListKeysSpec`) returns one. -/
theorem list_keys_options_divergence :
    serverListKeys ⟨[((5, 6), [⟨5, 6, 9⟩])]⟩
        [(9, ⟨[([1], [2]), ([3], [4])],
              [([1], [0, 0, 0, 0, 0, 0, 0, 1]), ([3], [0, 0, 0, 0, 0, 0, 0, 1])]⟩)]
        5 ⟨6, some 1, none⟩ ≠
      serverListKeysSpec ⟨[((5, 6), [⟨5, 6, 9⟩])]⟩
        [(9, ⟨[([1], [2]), ([3], [4])],
              [([1], [0, 0, 0, 0, 0, 0, 0, 1]), ([3], [0, 0, 0, 0, 0, 0, 0, 1])]⟩)]
        5 ⟨6, some 1, none⟩ := by
  intro h
  rw [show serverListKeys ⟨[((5, 6), [⟨5, 6, 9⟩])]⟩
        [(9, ⟨[([1], [2]), ([3], [4])],
              [([1], [0, 0, 0, 0, 0, 0, 0, 1]), ([3], [0, 0, 0, 0, 0, 0, 0, 1])]⟩)]
        5 ⟨6, some 1, none⟩ = Except.ok [⟨[1], 0, 1⟩, ⟨[3], 0, 1⟩] from rfl,
      show serverListKeysSpec ⟨[((5, 6), [⟨5, 6, 9⟩])]⟩
        [(9, ⟨[([1], [2]), ([3], [4])],
              [([1], [0, 0, 0, 0, 0, 0, 0, 1]), ([3], [0, 0, 0, 0, 0, 0, 0, 1])]⟩)]
        5 ⟨6, some 1, none⟩ = Except.ok [⟨[1], 0, 1⟩] from rfl] at h
  simp at h

/-- C3 amended: the list_keys RPC resolves the full partition sequence
for `(tenant, namespace)`, issues `list_keys` on each partition with
`ListOptions::default()` — ignoring the request's `limit` and
`start_key` — and returns the per-partition results concatenated in
partition order. -/
theorem server_list_keys_uses_default_options (l : LookupState)
    (stores : Stores) (t ns : Uuid) (lim : Option Nat) (sk : Option Bytes) :
    serverListKeys l stores t ⟨ns, lim, sk⟩ =
      serverListKeys l stores t ⟨ns, none, none⟩ ∧
    serverListKeys l stores t ⟨ns, lim, sk⟩ =
      (match partitionsFn l t ns with
        | none => .ok []
        | some ps =>
          .ok (ps.flatMap (fun p => listKeysOp (storeOf stores p.id) ListOptions.dflt))) :=
  ⟨rfl, rfl⟩

/-- C4: evaluation at the failing input. The gateway put handler,
given client CRC `0xDEADBEEF` for key `"alpha"` and value `"one"`,
forwards `Some(0x91A2A715)` — the CRC it computed itself — rather than
the client-provided value: the source's `if crc != crc` guard compares
the shadowed binder with itself and never rejects. -/
theorem gateway_forwards_computed_crc :
    gatewayForwardedCrc [97, 108, 112, 104, 97] [111, 110, 101]
        (some 0xDEADBEEF) = .ok (some 0x91A2A715) ∧
    (0x91A2A715 : Nat) ≠ 0xDEADBEEF := by
  constructor
  · rfl
  · decide

/-- C9: `Partition::list_keys` ordering and window. On a partition
whose metadata column family is in RocksDB key order, the returned
keys are in lexicographic byte order; at most `limit` entries are
returned (default 50); with `start_at` given the result is exactly the
first `limit` keys that are `≥ start_at` (inclusive), and without it
the first `limit` keys of the family. -/
theorem list_keys_order_window (s : PartitionState) (opts : ListOptions)
    (hs : MDSorted s.metadataCF) :
    List.Pairwise (fun a b => lexLt a b = true)
      ((listKeysOp s opts).map KeyMetadata.key) ∧
    (listKeysOp s opts).length ≤ opts.limit.getD 50 ∧
    (∀ st, opts.startAt = some st →
      (listKeysOp s opts).map KeyMetadata.key =
        ((s.metadataCF.map Prod.fst).filter (fun k => !lexLt k st)).take
          (opts.limit.getD 50)) ∧
    (opts.startAt = none →
      (listKeysOp s opts).map KeyMetadata.key =
        (s.metadataCF.map Prod.fst).take (opts.limit.getD 50)) := by
  have hpair_md : List.Pairwise (fun a b => lexLt a b = true)
      (s.metadataCF.map Prod.fst) := List.pairwise_map.mpr hs
  cases hsa : opts.startAt with
  | none =>
    have hkeys : (listKeysOp s opts).map KeyMetadata.key =
        (s.metadataCF.map Prod.fst).take (opts.limit.getD 50) := by
      simp [listKeysOp, hsa, List.map_map, Function.comp_def, List.map_take]
    refine ⟨?_, ?_, ?_, fun _ => hkeys⟩
    · rw [hkeys]
      exact List.Pairwise.sublist (List.take_sublist _ _) hpair_md
    · simp [listKeysOp, hsa, List.length_take]
    · intro st hst
      cases hst
  | some st0 =>
    have hdw : s.metadataCF.dropWhile (fun e => lexLt e.1 st0) =
        s.metadataCF.filter (fun e => !lexLt e.1 st0) :=
      dropWhile_lexLt_eq_filter st0 s.metadataCF hs
    have hkeys : (listKeysOp s opts).map KeyMetadata.key =
        ((s.metadataCF.map Prod.fst).filter (fun k => !lexLt k st0)).take
          (opts.limit.getD 50) := by
      simp only [listKeysOp, hsa, List.map_map, List.map_take]
      rw [hdw]
      rw [show ((s.metadataCF.filter (fun e => !lexLt e.1 st0)).map
          ((fun (m : KeyMetadata) => m.key) ∘
            (fun e : Bytes × Bytes =>
              KeyMetadata.mk e.1 (u32FromBe (e.2.take 4)) (u32FromBe (e.2.drop 4))))) =
          ((s.metadataCF.filter (fun e => !lexLt e.1 st0)).map Prod.fst) from rfl]
      rw [mapFst_filter (fun k => !lexLt k st0) s.metadataCF]
    refine ⟨?_, ?_, ?_, ?_⟩
    · rw [hkeys]
      exact List.Pairwise.sublist
        ((List.take_sublist _ _).trans (List.filter_sublist _)) hpair_md
    · simp [listKeysOp, hsa, List.length_take]
    · intro st hst
      cases hst
      exact hkeys
    · intro hst
      cases hst

theorem list_keys_order_window_witness :
    (listKeysOp ⟨[], [([1], [0, 0, 0, 2, 0, 0, 0, 3]), ([2], [0, 0, 0, 4, 0, 0, 0, 5])]⟩
        ⟨some 1, some [1]⟩).map KeyMetadata.key =
      ((([([1], [0, 0, 0, 2, 0, 0, 0, 3]), ([2], [0, 0, 0, 4, 0, 0, 0, 5])] :
          List (Bytes × Bytes)).map Prod.fst).filter (fun k => !lexLt k [1])).take 1 :=
  (list_keys_order_window
    ⟨[], [([1], [0, 0, 0, 2, 0, 0, 0, 3]), ([2], [0, 0, 0, 4, 0, 0, 0, 5])]⟩
    ⟨some 1, some [1]⟩ (by decide)).2.2.1 [1] rfl
